import Mathlib

/-!
Verification of the SSE (Server-Sent Events) package: the event encoder
(`Msg.SSEEvent`, `formatField` from sse.go) and the streaming client
(`ClientInit`, `Client.Run`, `Client.Send`, `Handler` from client.go).

Go strings are modelled as lists of characters; all protocol text is
ASCII, so byte-level and character-level views coincide.
-/

namespace SSE

/-- Go strings, modelled as lists of characters. -/
abbrev Str := List Char

/-- Convert a Lean string literal to the character-list model. -/
def chars (s : String) : Str := s.toList

/-- The newline character. -/
def nl : Char := '\n'

/-- Models `strings.Replace(data, "\n", repl, -1)`: every occurrence of the
single-character pattern `"\n"` is replaced by `repl`. -/
def replaceNL (repl : Str) : Str → Str
  | [] => []
  | c :: cs => if c = nl then repl ++ replaceNL repl cs else c :: replaceNL repl cs

/-- `Msg` from sse.go: a Server-Sent event message with fields
`Event`, `Data`, `Id`, `Retry`. -/
structure Msg where
  event : Str
  data : Str
  id : Str
  retry : Str
  deriving DecidableEq

/-- `formatField` from sse.go: formats one Server-Sent Event field.
When `multiline` is set, each embedded newline in `da` is replaced by a
newline followed by a fresh `"<field>: "` continuation; otherwise embedded
newlines are replaced by the empty string. -/
def formatField (field da : Str) (multiline : Bool) : Str :=
  let newline_start := field ++ chars ": "
  let newline_replace := if multiline then nl :: newline_start else []
  newline_start ++ replaceNL newline_replace da ++ [nl]

/-- `Msg.SSEEvent` from sse.go: renders the message as an SSE text block,
emitting each non-empty field in the order event, data, id, retry (only
data is formatted with `multiline = true`) and a final newline. -/
def Msg.SSEEvent (msg : Msg) : Str :=
  let m1 := if msg.event = [] then [] else formatField (chars "event") msg.event false
  let m2 := if msg.data = [] then [] else formatField (chars "data") msg.data true
  let m3 := if msg.id = [] then [] else formatField (chars "id") msg.id false
  let m4 := if msg.retry = [] then [] else formatField (chars "retry") msg.retry false
  m1 ++ m2 ++ m3 ++ m4 ++ [nl]

/-- `Comment.SSEEvent` from sse.go: a comment rendered as a field with the
empty field name and multiline continuation. -/
def commentSSEEvent (comment : Str) : Str :=
  formatField [] comment true ++ [nl]

example : Msg.SSEEvent { event := [], data := [], id := [], retry := [] } = [nl] := by decide

example :
    Msg.SSEEvent { event := chars "time", data := chars "12:00\n12:01", id := [], retry := [] } =
      chars "event: time\ndata: 12:00\ndata: 12:01\n\n" := by decide

example :
    Msg.SSEEvent { event := chars "a\nb", data := [], id := [], retry := [] } =
      chars "event: ab\n\n" := by decide

/-! ## Line structure of rendered blocks

Helper notions used to state the line-level properties of the encoder:
splitting a string at newlines, and joining a list of newline-free lines,
each terminated by a newline. -/

/-- Split a string at newlines, as a pair of its first segment and the
remaining segments. -/
def splitNLp : Str → Str × List Str
  | [] => ([], [])
  | c :: cs =>
    let p := splitNLp cs
    if c = nl then ([], p.1 :: p.2) else (c :: p.1, p.2)

/-- Split a string at newlines into the nonempty list of its segments. -/
def splitNL (s : Str) : List Str := (splitNLp s).1 :: (splitNLp s).2

/-- Join segments, placing `sep` in front of every segment but the first. -/
def joinWith (sep : Str) (p : Str × List Str) : Str :=
  p.1 ++ (p.2.map (fun l => sep ++ l)).flatten

/-- Join lines, terminating every line with a newline. -/
def joinLines (ls : List Str) : Str := (ls.map (fun l => l ++ [nl])).flatten

/-- Rejoin segments with single newlines (the inverse of `splitNL`). -/
def rejoinNL : List Str → Str
  | [] => []
  | h :: t => joinWith [nl] (h, t)

theorem replaceNL_eq_joinWith_splitNLp (repl : Str) (s : Str) :
    replaceNL repl s = joinWith repl (splitNLp s) := by
  induction s with
  | nil => rfl
  | cons c cs ih =>
    by_cases hc : c = nl
    · simp [replaceNL, splitNLp, joinWith, hc, ih, List.flatten, List.append_assoc]
    · simp [replaceNL, splitNLp, joinWith, hc, ih]

theorem replaceNL_nil_eq_filter (s : Str) :
    replaceNL [] s = s.filter (fun c => c ≠ nl) := by
  induction s with
  | nil => rfl
  | cons c cs ih =>
    by_cases hc : c = nl
    · simp [replaceNL, hc, List.filter, ih]
    · simp [replaceNL, hc, List.filter, ih]

theorem rejoinNL_splitNL (s : Str) : rejoinNL (splitNL s) = s := by
  have h : replaceNL [nl] s = s := by
    induction s with
    | nil => rfl
    | cons c cs ih =>
      by_cases hc : c = nl
      · simp [replaceNL, hc, ih]
      · simp [replaceNL, hc, ih]
  calc rejoinNL (splitNL s) = joinWith [nl] (splitNLp s) := rfl
    _ = replaceNL [nl] s := (replaceNL_eq_joinWith_splitNLp [nl] s).symm
    _ = s := h

theorem nl_notMem_splitNLp (s : Str) :
    nl ∉ (splitNLp s).1 ∧ ∀ l ∈ (splitNLp s).2, nl ∉ l := by
  induction s with
  | nil => simp [splitNLp]
  | cons c cs ih =>
    by_cases hc : c = nl
    · simpa [splitNLp, hc] using ih
    · simp only [splitNLp, if_neg hc]
      refine ⟨?_, ih.2⟩
      intro hmem
      rcases List.mem_cons.mp hmem with h | h
      · exact hc h.symm
      · exact ih.1 h

theorem nl_notMem_splitNL (s : Str) : ∀ l ∈ splitNL s, nl ∉ l := by
  intro l hl
  rcases List.mem_cons.mp hl with h | h
  · exact h ▸ (nl_notMem_splitNLp s).1
  · exact (nl_notMem_splitNLp s).2 l h

theorem joinLines_cons (l : Str) (ls : List Str) :
    joinLines (l :: ls) = (l ++ [nl]) ++ joinLines ls := by
  simp [joinLines]

theorem joinWith_cons (sep h x : Str) (t : List Str) :
    joinWith sep (h, x :: t) = h ++ sep ++ joinWith sep (x, t) := by
  simp [joinWith, List.append_assoc]

/-- `formatField` with `multiline = true` produces one `"<field>: "`-led
line per newline-separated segment of the value. -/
theorem formatField_multiline (f v : Str) :
    formatField f v true =
      joinLines ((splitNL v).map (fun p => f ++ chars ": " ++ p)) := by
  have key : ∀ (t : List Str) (h : Str),
      (f ++ chars ": ") ++ joinWith (nl :: (f ++ chars ": ")) (h, t) ++ [nl] =
        joinLines ((h :: t).map (fun p => f ++ chars ": " ++ p)) := by
    intro t
    induction t with
    | nil => intro h; simp [joinWith, joinLines, List.append_assoc]
    | cons x t' ih =>
      intro h
      rw [joinWith_cons, List.map_cons, joinLines_cons, ← ih x]
      simp [List.append_assoc]
  calc formatField f v true
      = (f ++ chars ": ") ++ replaceNL (nl :: (f ++ chars ": ")) v ++ [nl] := rfl
    _ = (f ++ chars ": ") ++ joinWith (nl :: (f ++ chars ": ")) (splitNLp v) ++ [nl] := by
        rw [replaceNL_eq_joinWith_splitNLp]
    _ = joinLines ((splitNL v).map (fun p => f ++ chars ": " ++ p)) := key _ _

/-- `formatField` with `multiline = false` produces a single line whose
value has all newlines removed. -/
theorem formatField_single (f v : Str) :
    formatField f v false = joinLines [f ++ chars ": " ++ v.filter (fun c => c ≠ nl)] := by
  calc formatField f v false
      = (f ++ chars ": ") ++ replaceNL [] v ++ [nl] := rfl
    _ = (f ++ chars ": ") ++ v.filter (fun c => c ≠ nl) ++ [nl] := by
        rw [replaceNL_nil_eq_filter]
    _ = joinLines [f ++ chars ": " ++ v.filter (fun c => c ≠ nl)] := by
        simp [joinLines, List.append_assoc]

/-- The lines of the rendered block for one field: none when the value is
empty; one `"<field>: "`-led line per newline-separated segment of the
value when `multiline` holds; otherwise a single line with the newlines
removed from the value. -/
def fieldBlockLines (f v : Str) (multiline : Bool) : List Str :=
  if v = [] then []
  else if multiline then (splitNL v).map (fun p => f ++ chars ": " ++ p)
  else [f ++ chars ": " ++ v.filter (fun c => c ≠ nl)]

/-- The lines of a rendered message, excluding the final blank line:
the blocks of the non-empty fields in the fixed order event, data, id,
retry, where only data gets multiline continuation. -/
def msgLines (m : Msg) : List Str :=
  fieldBlockLines (chars "event") m.event false ++
    fieldBlockLines (chars "data") m.data true ++
    fieldBlockLines (chars "id") m.id false ++
    fieldBlockLines (chars "retry") m.retry false

theorem joinLines_append (a b : List Str) :
    joinLines (a ++ b) = joinLines a ++ joinLines b := by
  simp [joinLines]

theorem block_eq_joinLines (f v : Str) (ml : Bool) :
    (if v = [] then [] else formatField f v ml) = joinLines (fieldBlockLines f v ml) := by
  by_cases hv : v = []
  · simp [fieldBlockLines, hv, joinLines]
  · cases ml with
    | true => simp [fieldBlockLines, hv, formatField_multiline]
    | false => simp [fieldBlockLines, hv, formatField_single]

/-- The rendered message is its lines, each newline-terminated, followed
by the final blank line. -/
theorem sseEvent_eq_joinLines (m : Msg) :
    Msg.SSEEvent m = joinLines (msgLines m) ++ [nl] := by
  calc Msg.SSEEvent m
      = (if m.event = [] then [] else formatField (chars "event") m.event false) ++
          (if m.data = [] then [] else formatField (chars "data") m.data true) ++
          (if m.id = [] then [] else formatField (chars "id") m.id false) ++
          (if m.retry = [] then [] else formatField (chars "retry") m.retry false) ++ [nl] := rfl
    _ = joinLines (msgLines m) ++ [nl] := by
        rw [block_eq_joinLines, block_eq_joinLines, block_eq_joinLines, block_eq_joinLines]
        simp [msgLines, joinLines_append, List.append_assoc]

theorem nl_notMem_line (f tail : Str) (hf : nl ∉ f) (ht : nl ∉ tail) :
    nl ∉ f ++ chars ": " ++ tail := by
  intro hmem
  rcases List.mem_append.mp ((List.append_assoc f (chars ": ") tail) ▸ hmem) with h | h
  · exact hf h
  · rcases List.mem_append.mp h with h | h
    · have : chars ": " = [':', ' '] := by decide
      rw [this] at h
      rcases List.mem_cons.mp h with h | h
      · exact absurd h (by decide)
      · rcases List.mem_cons.mp h with h | h
        · exact absurd h (by decide)
        · exact absurd h (List.not_mem_nil nl)
    · exact ht h

theorem nl_notMem_filterNL (v : Str) : nl ∉ v.filter (fun c => c ≠ nl) := by
  intro h
  have := (List.mem_filter.mp h).2
  simp at this

theorem line_ne_nil (f tail : Str) : f ++ chars ": " ++ tail ≠ [] := by
  intro h
  have h2 := congrArg List.length h
  simp [chars] at h2

theorem fieldBlockLines_proper (f v : Str) (ml : Bool) (hf : nl ∉ f) :
    ∀ l ∈ fieldBlockLines f v ml, nl ∉ l ∧ l ≠ [] := by
  intro l hl
  by_cases hv : v = []
  · simp [fieldBlockLines, hv] at hl
  · cases ml with
    | true =>
      simp [fieldBlockLines, hv, List.mem_map] at hl
      obtain ⟨p, hp, hpe⟩ := hl
      rw [← hpe]
      refine ⟨?_, ?_⟩
      · simpa [List.append_assoc] using nl_notMem_line f p hf (nl_notMem_splitNL v p hp)
      · simpa [List.append_assoc] using line_ne_nil f p
    | false =>
      simp [fieldBlockLines, hv] at hl
      subst hl
      refine ⟨?_, ?_⟩
      · simpa [List.append_assoc] using
          nl_notMem_line f (v.filter (fun c => c ≠ nl)) hf (nl_notMem_filterNL v)
      · simpa [List.append_assoc] using line_ne_nil f (v.filter (fun c => c ≠ nl))

theorem formatField_single_flat (f v : Str) :
    formatField f v false = f ++ chars ": " ++ v.filter (fun c => c ≠ nl) ++ [nl] := by
  simp [formatField, replaceNL_nil_eq_filter, replaceNL]

theorem formatField_event (v : Str) :
    formatField (chars "event") v false = chars "event: " ++ v.filter (fun c => c ≠ nl) ++ [nl] := by
  rw [formatField_single_flat, show chars "event" ++ chars ": " = chars "event: " by decide]

theorem formatField_id (v : Str) :
    formatField (chars "id") v false = chars "id: " ++ v.filter (fun c => c ≠ nl) ++ [nl] := by
  rw [formatField_single_flat, show chars "id" ++ chars ": " = chars "id: " by decide]

theorem formatField_retry (v : Str) :
    formatField (chars "retry") v false = chars "retry: " ++ v.filter (fun c => c ≠ nl) ++ [nl] := by
  rw [formatField_single_flat, show chars "retry" ++ chars ": " = chars "retry: " by decide]

theorem formatField_data (v : Str) :
    formatField (chars "data") v true =
      joinLines ((splitNL v).map (fun p => chars "data: " ++ p)) := by
  rw [formatField_multiline]
  have : (fun p => chars "data" ++ chars ": " ++ p) = (fun p : Str => chars "data: " ++ p) := by
    funext p
    rw [show chars "data" ++ chars ": " = chars "data: " by decide]
  rw [this]

/-- C1: for every `Msg`, the rendered SSE text is the field blocks of the
non-empty fields, in the fixed order event, data, id, retry (`msgLines`,
which contributes no lines for an empty field), each line newline
terminated, followed by exactly one final blank line; every block line is
non-empty and newline free, so the final blank line is the only blank
line; and when every field is empty the output is exactly `"\n"`. -/
theorem c1_render_structure (m : Msg) :
    Msg.SSEEvent m = joinLines (msgLines m) ++ [nl] ∧
    (∀ l ∈ msgLines m, nl ∉ l ∧ l ≠ []) ∧
    Msg.SSEEvent { event := [], data := [], id := [], retry := [] } = [nl] := by
  refine ⟨sseEvent_eq_joinLines m, ?_, by decide⟩
  intro l hl
  rcases List.mem_append.mp hl with h | h
  · rcases List.mem_append.mp h with h | h
    · rcases List.mem_append.mp h with h | h
      · exact fieldBlockLines_proper _ _ _ (by decide) l h
      · exact fieldBlockLines_proper _ _ _ (by decide) l h
    · exact fieldBlockLines_proper _ _ _ (by decide) l h
  · exact fieldBlockLines_proper _ _ _ (by decide) l h

/-- Witness for C1 at a concrete message with a multi-line data payload. -/
theorem c1_render_structure_witness :
    Msg.SSEEvent { event := chars "time", data := chars "12:00\n12:01", id := [], retry := [] } =
        joinLines
          (msgLines { event := chars "time", data := chars "12:00\n12:01", id := [], retry := [] }) ++
          [nl] ∧
    (nl ∉ chars "data: 12:00" ∧ chars "data: 12:00" ≠ []) :=
  ⟨(c1_render_structure
      { event := chars "time", data := chars "12:00\n12:01", id := [], retry := [] }).1,
    (c1_render_structure
      { event := chars "time", data := chars "12:00\n12:01", id := [], retry := [] }).2.1
      (chars "data: 12:00") (by decide)⟩

/-- C2 counterexample: the claim says newline continuation applies to all
four fields, so a message whose event name is `"a\nb"` would render as
`"event: a\nevent: b\n\n"`; the code instead deletes the newline and
renders `"event: ab\n\n"`. -/
theorem c2_counterexample :
    Msg.SSEEvent { event := chars "a\nb", data := [], id := [], retry := [] } =
        chars "event: ab\n\n" ∧
    Msg.SSEEvent { event := chars "a\nb", data := [], id := [], retry := [] } ≠
        chars "event: a\nevent: b\n\n" := by
  decide

/-- C2 amended: for every `Msg`, a non-empty field is emitted as
`"<field>: "` followed by its value and a trailing newline, but the
newline continuation treatment applies only to the data field (one
`"data: "` line per newline-separated segment of the value); for the
event, id and retry fields embedded newlines are deleted from the value
instead. -/
theorem c2_amended_field_encoding (m : Msg) :
    Msg.SSEEvent m =
      (if m.event = [] then []
        else chars "event: " ++ m.event.filter (fun c => c ≠ nl) ++ [nl]) ++
      (if m.data = [] then []
        else joinLines ((splitNL m.data).map (fun p => chars "data: " ++ p))) ++
      (if m.id = [] then []
        else chars "id: " ++ m.id.filter (fun c => c ≠ nl) ++ [nl]) ++
      (if m.retry = [] then []
        else chars "retry: " ++ m.retry.filter (fun c => c ≠ nl) ++ [nl]) ++ [nl] := by
  have step : Msg.SSEEvent m =
      (if m.event = [] then [] else formatField (chars "event") m.event false) ++
        (if m.data = [] then [] else formatField (chars "data") m.data true) ++
        (if m.id = [] then [] else formatField (chars "id") m.id false) ++
        (if m.retry = [] then [] else formatField (chars "retry") m.retry false) ++ [nl] := rfl
  rw [step, show (if m.event = [] then [] else formatField (chars "event") m.event false) =
      (if m.event = [] then []
        else chars "event: " ++ m.event.filter (fun c => c ≠ nl) ++ [nl]) from by
        by_cases h : m.event = [] <;> simp [h, formatField_event],
    show (if m.data = [] then [] else formatField (chars "data") m.data true) =
      (if m.data = [] then []
        else joinLines ((splitNL m.data).map (fun p => chars "data: " ++ p))) from by
        by_cases h : m.data = [] <;> simp [h, formatField_data],
    show (if m.id = [] then [] else formatField (chars "id") m.id false) =
      (if m.id = [] then []
        else chars "id: " ++ m.id.filter (fun c => c ≠ nl) ++ [nl]) from by
        by_cases h : m.id = [] <;> simp [h, formatField_id],
    show (if m.retry = [] then [] else formatField (chars "retry") m.retry false) =
      (if m.retry = [] then []
        else chars "retry: " ++ m.retry.filter (fun c => c ≠ nl) ++ [nl]) from by
        by_cases h : m.retry = [] <;> simp [h, formatField_retry]]

/-- C10: embedded newlines in the event, id and retry fields are deleted
entirely: each such non-empty field renders as a single `"<field>: "` line
whose value is the original value with the newlines removed (never
continued onto additional lines and never emitted raw), and that filtered
value contains no newline character. -/
theorem c10_nonData_newlines_deleted (m : Msg) :
    Msg.SSEEvent m =
      (if m.event = [] then []
        else chars "event: " ++ m.event.filter (fun c => c ≠ nl) ++ [nl]) ++
      (if m.data = [] then [] else formatField (chars "data") m.data true) ++
      (if m.id = [] then []
        else chars "id: " ++ m.id.filter (fun c => c ≠ nl) ++ [nl]) ++
      (if m.retry = [] then []
        else chars "retry: " ++ m.retry.filter (fun c => c ≠ nl) ++ [nl]) ++ [nl] ∧
    nl ∉ m.event.filter (fun c => c ≠ nl) ∧
    nl ∉ m.id.filter (fun c => c ≠ nl) ∧
    nl ∉ m.retry.filter (fun c => c ≠ nl) := by
  refine ⟨?_, nl_notMem_filterNL m.event, nl_notMem_filterNL m.id, nl_notMem_filterNL m.retry⟩
  have step : Msg.SSEEvent m =
      (if m.event = [] then [] else formatField (chars "event") m.event false) ++
        (if m.data = [] then [] else formatField (chars "data") m.data true) ++
        (if m.id = [] then [] else formatField (chars "id") m.id false) ++
        (if m.retry = [] then [] else formatField (chars "retry") m.retry false) ++ [nl] := rfl
  rw [step, show (if m.event = [] then [] else formatField (chars "event") m.event false) =
      (if m.event = [] then []
        else chars "event: " ++ m.event.filter (fun c => c ≠ nl) ++ [nl]) from by
        by_cases h : m.event = [] <;> simp [h, formatField_event],
    show (if m.id = [] then [] else formatField (chars "id") m.id false) =
      (if m.id = [] then []
        else chars "id: " ++ m.id.filter (fun c => c ≠ nl) ++ [nl]) from by
        by_cases h : m.id = [] <;> simp [h, formatField_id],
    show (if m.retry = [] then [] else formatField (chars "retry") m.retry false) =
      (if m.retry = [] then []
        else chars "retry: " ++ m.retry.filter (fun c => c ≠ nl) ++ [nl]) from by
        by_cases h : m.retry = [] <;> simp [h, formatField_retry]]

theorem splitNLp_append_nl (l r : Str) (h : nl ∉ l) :
    splitNLp (l ++ nl :: r) = (l, (splitNLp r).1 :: (splitNLp r).2) := by
  induction l with
  | nil => simp [splitNLp]
  | cons c cs ih =>
    have hc : c ≠ nl := fun e => h (e ▸ List.mem_cons_self c cs)
    have hcs : nl ∉ cs := fun hm => h (List.mem_cons_of_mem c hm)
    simp [splitNLp, hc, ih hcs]

/-- Splitting the join of newline-free lines recovers the lines, plus the
empty segment after the final newline. -/
theorem splitNL_joinLines (ls : List Str) (h : ∀ l ∈ ls, nl ∉ l) :
    splitNL (joinLines ls) = ls ++ [[]] := by
  induction ls with
  | nil => rfl
  | cons l ls ih =>
    have hjoin : joinLines (l :: ls) = l ++ nl :: joinLines ls := by
      rw [joinLines_cons]
      simp
    rw [hjoin]
    have hl : nl ∉ l := h l (List.mem_cons_self l ls)
    have hrest := ih (fun x hx => h x (List.mem_cons_of_mem l hx))
    simp only [splitNL, splitNLp_append_nl l (joinLines ls) hl]
    have : ((splitNLp (joinLines ls)).1 :: (splitNLp (joinLines ls)).2) = ls ++ [[]] := hrest
    rw [List.cons_append, this]

theorem isPrefixOf_append_self (a b : Str) : a.isPrefixOf (a ++ b) = true := by
  induction a with
  | nil => simp [List.isPrefixOf]
  | cons c cs ih => simp [List.isPrefixOf, ih]

theorem joinLines_append_blank (ls : List Str) :
    joinLines ls ++ [nl] = joinLines (ls ++ [[]]) := by
  rw [joinLines_append]
  rfl

/-- C6: render a message whose only non-empty field is a data payload
containing newlines, split the output into lines, keep the lines led by
`"data: "`, strip that lead from each, and rejoin with newlines: the
original payload is recovered exactly. -/
theorem c6_data_round_trip (s : Str) (hs : nl ∈ s) :
    rejoinNL
        (((splitNL (Msg.SSEEvent { event := [], data := s, id := [], retry := [] })).filter
              (fun l => (chars "data: ").isPrefixOf l)).map
          (fun l => l.drop (chars "data: ").length)) = s := by
  have hsne : s ≠ [] := by
    intro h
    rw [h] at hs
    exact List.not_mem_nil nl hs
  set dl : List Str := (splitNL s).map (fun p => chars "data: " ++ p) with hdl
  have hout : Msg.SSEEvent { event := [], data := s, id := [], retry := [] } =
      joinLines (dl ++ [[]]) := by
    have step : Msg.SSEEvent { event := [], data := s, id := [], retry := [] } =
        formatField (chars "data") s true ++ [nl] := by
      show ([] : Str) ++ (if s = [] then [] else formatField (chars "data") s true) ++
          ([] : Str) ++ ([] : Str) ++ [nl] = _
      simp [hsne]
    rw [step, formatField_data, joinLines_append_blank]
  have hdlfree : ∀ l ∈ dl ++ [[]], nl ∉ l := by
    intro l hl
    rcases List.mem_append.mp hl with h | h
    · rw [hdl] at h
      obtain ⟨p, hp, hpe⟩ := List.mem_map.mp h
      rw [← hpe]
      intro hmem
      rcases List.mem_append.mp hmem with h2 | h2
      · exact absurd h2 (by decide)
      · exact nl_notMem_splitNL s p hp h2
    · simp at h
      subst h
      exact List.not_mem_nil nl
  have hsplit : splitNL (Msg.SSEEvent { event := [], data := s, id := [], retry := [] }) =
      (dl ++ [[]]) ++ [[]] := by
    rw [hout, splitNL_joinLines _ hdlfree]
  rw [hsplit]
  have hfilter : ((dl ++ [[]]) ++ [[]]).filter (fun l => (chars "data: ").isPrefixOf l) = dl := by
    rw [List.filter_append, List.filter_append]
    have h1 : dl.filter (fun l => (chars "data: ").isPrefixOf l) = dl := by
      apply List.filter_eq_self.mpr
      intro l hl
      rw [hdl] at hl
      obtain ⟨p, hp, hpe⟩ := List.mem_map.mp hl
      rw [← hpe]
      exact isPrefixOf_append_self (chars "data: ") p
    have h2 : ([[]] : List Str).filter (fun l => (chars "data: ").isPrefixOf l) = [] := by decide
    rw [h1, h2]
    simp
  rw [hfilter, hdl, List.map_map]
  have hmap : (splitNL s).map
      ((fun l : Str => l.drop (chars "data: ").length) ∘ fun p => chars "data: " ++ p) =
      (splitNL s).map (fun p => p) := by
    apply List.map_congr_left
    intro p _
    show (chars "data: " ++ p).drop (chars "data: ").length = p
    exact List.drop_left (chars "data: ") p
  rw [hmap, List.map_id']
  exact rejoinNL_splitNL s

/-- Witness for C6 at the concrete payload `"12:00\n12:01"`. -/
theorem c6_data_round_trip_witness :
    rejoinNL
        (((splitNL (Msg.SSEEvent
                { event := [], data := chars "12:00\n12:01", id := [], retry := [] })).filter
              (fun l => (chars "data: ").isPrefixOf l)).map
          (fun l => l.drop (chars "data: ").length)) = chars "12:00\n12:01" :=
  c6_data_round_trip (chars "12:00\n12:01") (by decide)

/-! ## Streaming client (client.go)

The `http.ResponseWriter` is modelled by its two capability checks, its
header map and its body bytes.  `ClientInit` is a direct translation; the
`Client` record keeps the observable one-shot `done` signal (a fresh
`make(chan struct de)` is open, hence `doneClosed = false`). -/

/-- An event value behind the `Event` interface of sse.go. -/
inductive EventI where
  | msg : Msg → EventI
  | comment : Str → EventI
  deriving DecidableEq

/-- Dispatch of the `SSEEvent()` interface method. -/
def EventI.sseEvent : EventI → Str
  | .msg m => m.SSEEvent
  | .comment c => commentSSEEvent c

/-- The connection underlying an `http.ResponseWriter`: whether it
supports `http.Flusher` and `http.CloseNotifier`, its response headers
and the body bytes written so far. -/
structure ResponseWriter where
  canFlush : Bool
  canCloseNotify : Bool
  headers : List (Str × Str)
  body : Str
  deriving DecidableEq

/-- `Header().Set(k, v)`: drop any entry for `k` and record the single
pair `(k, v)` (header maps have at most one value per key here). -/
def setHeader (k v : Str) : List (Str × Str) → List (Str × Str)
  | [] => [(k, v)]
  | p :: ps => if p.1 = k then setHeader k v ps else p :: setHeader k v ps

/-- Look up a response header. -/
def getHeader (k : Str) : List (Str × Str) → Option Str
  | [] => none
  | p :: ps => if p.1 = k then some p.2 else getHeader k ps

/-- The client state observable from outside: whether the one-shot `done`
channel has been closed. -/
structure Client where
  doneClosed : Bool
  deriving DecidableEq

/-- `ClientInit` from client.go: reject a writer that does not support
flushing, then one that does not support close notification; otherwise
set the three SSE headers and return a fresh client with an open `done`
channel.  The returned writer carries the updated headers. -/
def ClientInit (w : ResponseWriter) : Except Str (ResponseWriter × Client) :=
  if !w.canFlush then .error (chars "streaming not supported")
  else if !w.canCloseNotify then .error (chars "unable to start close handler")
  else
    .ok ({ w with
            headers := setHeader (chars "Connection") (chars "keep-alive")
              (setHeader (chars "Cache-Control") (chars "no-cache")
                (setHeader (chars "Content-Type") (chars "text/event-stream") w.headers)) },
          { doneClosed := false })

theorem getHeader_set_eq (k v : Str) (hs : List (Str × Str)) :
    getHeader k (setHeader k v hs) = some v := by
  induction hs with
  | nil => simp [setHeader, getHeader]
  | cons p ps ih =>
    by_cases hp : p.1 = k
    · simpa [setHeader, hp] using ih
    · simpa [setHeader, getHeader, hp] using ih

theorem getHeader_set_ne (k k2 v : Str) (h : ¬(k = k2)) (hs : List (Str × Str)) :
    getHeader k (setHeader k2 v hs) = getHeader k hs := by
  induction hs with
  | nil => simp [setHeader, getHeader, Ne.symm h]
  | cons p ps ih =>
    by_cases hp2 : p.1 = k2
    · have hpk : ¬(p.1 = k) := by
        rw [hp2]
        exact Ne.symm h
      simpa [setHeader, getHeader, hp2, hpk, Ne.symm h] using ih
    · by_cases hpk : p.1 = k
      · simp [setHeader, getHeader, hp2, hpk, h]
      · simpa [setHeader, getHeader, hp2, hpk, h] using ih

/-- C5: `ClientInit` fails (creating no client) exactly when the supplied
connection cannot flush or cannot signal peer disconnection; on success
it has set the three headers Content-Type, Cache-Control and Connection,
has written no body bytes, and the returned client's `done` signal is
still open (the initialized state). -/
theorem c5_clientInit (w : ResponseWriter) :
    ((ClientInit w).isOk = (w.canFlush && w.canCloseNotify)) ∧
    (∀ w2 cl, ClientInit w = .ok (w2, cl) →
      getHeader (chars "Content-Type") w2.headers = some (chars "text/event-stream") ∧
      getHeader (chars "Cache-Control") w2.headers = some (chars "no-cache") ∧
      getHeader (chars "Connection") w2.headers = some (chars "keep-alive") ∧
      w2.body = w.body ∧
      cl.doneClosed = false) := by
  constructor
  · cases hf : w.canFlush <;> cases hc : w.canCloseNotify <;>
      simp [ClientInit, hf, hc, Except.isOk, Except.toBool]
  · intro w2 cl hok
    cases hf : w.canFlush <;> cases hc : w.canCloseNotify <;>
      rw [ClientInit] at hok <;> simp [hf, hc] at hok
    obtain ⟨hw2, hcl⟩ := hok
    subst hw2
    subst hcl
    refine ⟨?_, ?_, ?_, rfl, rfl⟩
    · rw [show ({ w with
            headers := setHeader (chars "Connection") (chars "keep-alive")
              (setHeader (chars "Cache-Control") (chars "no-cache")
                (setHeader (chars "Content-Type") (chars "text/event-stream")
                  w.headers)) } : ResponseWriter).headers =
          setHeader (chars "Connection") (chars "keep-alive")
            (setHeader (chars "Cache-Control") (chars "no-cache")
              (setHeader (chars "Content-Type") (chars "text/event-stream") w.headers))
          from rfl,
        getHeader_set_ne _ _ _ (by decide), getHeader_set_ne _ _ _ (by decide),
        getHeader_set_eq]
    · rw [show ({ w with
            headers := setHeader (chars "Connection") (chars "keep-alive")
              (setHeader (chars "Cache-Control") (chars "no-cache")
                (setHeader (chars "Content-Type") (chars "text/event-stream")
                  w.headers)) } : ResponseWriter).headers =
          setHeader (chars "Connection") (chars "keep-alive")
            (setHeader (chars "Cache-Control") (chars "no-cache")
              (setHeader (chars "Content-Type") (chars "text/event-stream") w.headers))
          from rfl,
        getHeader_set_ne _ _ _ (by decide), getHeader_set_eq]
    · rw [show ({ w with
            headers := setHeader (chars "Connection") (chars "keep-alive")
              (setHeader (chars "Cache-Control") (chars "no-cache")
                (setHeader (chars "Content-Type") (chars "text/event-stream")
                  w.headers)) } : ResponseWriter).headers =
          setHeader (chars "Connection") (chars "keep-alive")
            (setHeader (chars "Cache-Control") (chars "no-cache")
              (setHeader (chars "Content-Type") (chars "text/event-stream") w.headers))
          from rfl,
        getHeader_set_eq]

/-- Witness for C5 on a writer that supports both capabilities and starts
with no headers and an empty body. -/
theorem c5_clientInit_witness :
    getHeader (chars "Content-Type")
        [(chars "Content-Type", chars "text/event-stream"),
          (chars "Cache-Control", chars "no-cache"),
          (chars "Connection", chars "keep-alive")] = some (chars "text/event-stream") ∧
    getHeader (chars "Cache-Control")
        [(chars "Content-Type", chars "text/event-stream"),
          (chars "Cache-Control", chars "no-cache"),
          (chars "Connection", chars "keep-alive")] = some (chars "no-cache") ∧
    getHeader (chars "Connection")
        [(chars "Content-Type", chars "text/event-stream"),
          (chars "Cache-Control", chars "no-cache"),
          (chars "Connection", chars "keep-alive")] = some (chars "keep-alive") ∧
    ([] : Str) = ([] : Str) ∧
    false = false :=
  (c5_clientInit { canFlush := true, canCloseNotify := true, headers := [], body := [] }).2
    { canFlush := true, canCloseNotify := true,
      headers :=
        [(chars "Content-Type", chars "text/event-stream"),
          (chars "Cache-Control", chars "no-cache"),
          (chars "Connection", chars "keep-alive")],
      body := [] }
    { doneClosed := false } (by rfl)

/-! ## The write loop (`Client.Run`)

`Run` writes an open event, then repeatedly selects over three channels
(a queued application event, `CloseNotify`, `ctx.Done()`), exits the loop
on either of the latter two, writes a close event and only then (via the
deferred call) closes `done`.

An execution is a schedule: the interleaving of environment actions
(the cancellation firing, the peer going away) with the branch the `select`
statement commits to at each loop iteration.  Go's `select` has no
priority: any branch whose channel is ready may be chosen, so a
`chooseEvent` step is allowed even after the cancellation has fired (an
event branch is ready exactly when some sender is blocked in `Send`, which
the step itself witnesses); `chooseCancel` and `choosePeer` are ready only
once the corresponding signal has fired, and an invalid or incomplete
schedule yields no terminated execution (`none`). -/

/-- One step of a schedule for `Client.Run`. -/
inductive RAct where
  | fireCancel : RAct
  | peerGone : RAct
  | chooseEvent : EventI → RAct
  | chooseCancel : RAct
  | choosePeer : RAct
  deriving DecidableEq

/-- An observable action of the write loop, in program order. -/
inductive Obs where
  | wrote : Str → Obs
  | setDone : Obs
  deriving DecidableEq

/-- The `open` event written at loop start. -/
def openMsg : Msg := { event := chars "open", data := [], id := [], retry := [] }

/-- The `close` event written at loop end. -/
def closeMsg : Msg := { event := chars "close", data := [], id := [], retry := [] }

/-- The loop body of `Client.Run`, given which signals have already fired.
Returns the observations after this point, or `none` when the schedule is
invalid (a terminating branch chosen before its signal fired) or
incomplete (the loop never exits, so `Run` never returns). -/
def runLoop (cancelFired peerFired : Bool) : List RAct → Option (List Obs)
  | [] => none
  | .fireCancel :: r => runLoop true peerFired r
  | .peerGone :: r => runLoop cancelFired true r
  | .chooseEvent e :: r => (runLoop cancelFired peerFired r).map (fun t => .wrote e.sseEvent :: t)
  | .chooseCancel :: _ =>
      if cancelFired then some [.wrote closeMsg.SSEEvent, .setDone] else none
  | .choosePeer :: _ =>
      if peerFired then some [.wrote closeMsg.SSEEvent, .setDone] else none

/-- `Client.Run` on a schedule: the open event is written first, then the
loop runs with no signal fired yet. -/
def clientRun (acts : List RAct) : Option (List Obs) :=
  (runLoop false false acts).map (fun t => .wrote openMsg.SSEEvent :: t)

/-- The application events the loop dequeues and writes: those chosen
before the first terminating branch. -/
def processedEvents : List RAct → List EventI
  | [] => []
  | .chooseEvent e :: r => e :: processedEvents r
  | .chooseCancel :: _ => []
  | .choosePeer :: _ => []
  | .fireCancel :: r => processedEvents r
  | .peerGone :: r => processedEvents r

theorem runLoop_trace (acts : List RAct) :
    ∀ (cf pf : Bool) (t : List Obs), runLoop cf pf acts = some t →
      t = (processedEvents acts).map (fun e => Obs.wrote e.sseEvent) ++
        [Obs.wrote closeMsg.SSEEvent, Obs.setDone] := by
  induction acts with
  | nil => intro cf pf t h; exact absurd h (by simp [runLoop])
  | cons a r ih =>
    intro cf pf t h
    cases a with
    | fireCancel => exact ih true pf t h
    | peerGone => exact ih cf true t h
    | chooseEvent e =>
      rw [runLoop] at h
      cases hr : runLoop cf pf r with
      | none => rw [hr] at h; exact absurd h (by simp)
      | some t2 =>
        rw [hr] at h
        have ht : t = .wrote e.sseEvent :: t2 := by
          simpa using h.symm
        rw [ht, ih cf pf t2 hr]
        rfl
    | chooseCancel =>
      rw [runLoop] at h
      cases hcf : cf with
      | false => rw [hcf] at h; exact absurd h (by simp)
      | true =>
        rw [hcf] at h
        simp only [if_pos] at h
        have ht : t = [.wrote closeMsg.SSEEvent, .setDone] := by simpa using h.symm
        rw [ht]
        rfl
    | choosePeer =>
      rw [runLoop] at h
      cases hpf : pf with
      | false => rw [hpf] at h; exact absurd h (by simp)
      | true =>
        rw [hpf] at h
        simp only [if_pos] at h
        have ht : t = [.wrote closeMsg.SSEEvent, .setDone] := by simpa using h.symm
        rw [ht]
        rfl

/-- C3: every terminated execution of `Client.Run` observes exactly the
synthetic open event first, then one write per processed application
event in order, then the synthetic close event, and only after that the
done signal: the open and close writes occur once each, in that order,
bracketing the application events, and the close write precedes the done
signal. -/
theorem c3_run_bracket (acts : List RAct) (t : List Obs) (h : clientRun acts = some t) :
    t = Obs.wrote openMsg.SSEEvent ::
        ((processedEvents acts).map (fun e => Obs.wrote e.sseEvent) ++
          [Obs.wrote closeMsg.SSEEvent, Obs.setDone]) := by
  rw [clientRun] at h
  cases hr : runLoop false false acts with
  | none => rw [hr] at h; exact absurd h (by simp)
  | some t2 =>
    rw [hr] at h
    have ht : t = .wrote openMsg.SSEEvent :: t2 := by simpa using h.symm
    rw [ht, runLoop_trace acts false false t2 hr]

/-- Witness for C3: a schedule that delivers one event and is then
cancelled. -/
theorem c3_run_bracket_witness :
    [Obs.wrote openMsg.SSEEvent,
      Obs.wrote (EventI.msg { event := chars "time", data := [], id := [], retry := [] }).sseEvent,
      Obs.wrote closeMsg.SSEEvent, Obs.setDone] =
      Obs.wrote openMsg.SSEEvent ::
        ((processedEvents
              [RAct.chooseEvent (EventI.msg { event := chars "time", data := [], id := [], retry := [] }),
                RAct.fireCancel, RAct.chooseCancel]).map (fun e => Obs.wrote e.sseEvent) ++
          [Obs.wrote closeMsg.SSEEvent, Obs.setDone]) :=
  c3_run_bracket
    [RAct.chooseEvent (EventI.msg { event := chars "time", data := [], id := [], retry := [] }),
      RAct.fireCancel, RAct.chooseCancel]
    [Obs.wrote openMsg.SSEEvent,
      Obs.wrote (EventI.msg { event := chars "time", data := [], id := [], retry := [] }).sseEvent,
      Obs.wrote closeMsg.SSEEvent, Obs.setDone]
    (by decide)

/-- How many application events the loop processes at a point where the
cancellation or peer-disconnect signal has already fired (`fired` records
whether a signal has fired before the schedule starts). -/
def eventsAfterFire (fired : Bool) : List RAct → Nat
  | [] => 0
  | .fireCancel :: r => eventsAfterFire true r
  | .peerGone :: r => eventsAfterFire true r
  | .chooseEvent _ :: r => (if fired then 1 else 0) + eventsAfterFire fired r
  | .chooseCancel :: _ => 0
  | .choosePeer :: _ => 0

/-- C7 counterexample: the claim says that once the cancellation signal
has fired the loop processes at most one further queued event, but Go's
`select` has no priority among ready branches, so a terminated execution
exists in which the cancellation fires and the loop still dequeues and
writes two queued events before committing to the cancellation branch. -/
theorem c7_counterexample :
    (clientRun
        [RAct.fireCancel,
          RAct.chooseEvent (EventI.msg { event := chars "a", data := [], id := [], retry := [] }),
          RAct.chooseEvent (EventI.msg { event := chars "b", data := [], id := [], retry := [] }),
          RAct.chooseCancel]).isSome = true ∧
    ¬(eventsAfterFire false
        [RAct.fireCancel,
          RAct.chooseEvent (EventI.msg { event := chars "a", data := [], id := [], retry := [] }),
          RAct.chooseEvent (EventI.msg { event := chars "b", data := [], id := [], retry := [] }),
          RAct.chooseCancel] ≤ 1) := by
  decide

theorem runLoop_stops_at_terminator (acts1 : List RAct) :
    ∀ (cf pf : Bool) (t : RAct) (acts2 : List RAct),
      (t = RAct.chooseCancel ∨ t = RAct.choosePeer) →
      runLoop cf pf (acts1 ++ t :: acts2) = runLoop cf pf (acts1 ++ [t]) := by
  induction acts1 with
  | nil =>
    intro cf pf t acts2 ht
    rcases ht with h | h <;> subst h <;> rfl
  | cons a r ih =>
    intro cf pf t acts2 ht
    cases a with
    | fireCancel => exact ih true pf t acts2 ht
    | peerGone => exact ih cf true t acts2 ht
    | chooseEvent e =>
      show (runLoop cf pf (r ++ t :: acts2)).map _ = (runLoop cf pf (r ++ [t])).map _
      rw [ih cf pf t acts2 ht]
    | chooseCancel => rfl
    | choosePeer => rfl

/-- C7 amended: once the write loop observes (commits to) the cancellation
or peer-disconnect branch of the select, it exits without processing any
further queued events: the terminated execution is unchanged if everything
scheduled after that branch is discarded.  (Before the signal is
observed, the select has no priority, so already-fired cancellation does
not by itself stop event processing — see the counterexample.) -/
theorem c7_amended_no_events_after_observation (acts1 acts2 : List RAct) (t : RAct)
    (ht : t = RAct.chooseCancel ∨ t = RAct.choosePeer) :
    clientRun (acts1 ++ t :: acts2) = clientRun (acts1 ++ [t]) := by
  rw [clientRun, clientRun, runLoop_stops_at_terminator acts1 false false t acts2 ht]

/-- Witness for the amended C7: events scheduled after the observed
cancellation do not change the terminated execution. -/
theorem c7_amended_witness :
    clientRun
        ([RAct.fireCancel] ++ RAct.chooseCancel ::
          [RAct.chooseEvent (EventI.msg { event := chars "x", data := [], id := [], retry := [] })]) =
      clientRun ([RAct.fireCancel] ++ [RAct.chooseCancel]) :=
  c7_amended_no_events_after_observation [RAct.fireCancel]
    [RAct.chooseEvent (EventI.msg { event := chars "x", data := [], id := [], retry := [] })]
    RAct.chooseCancel (Or.inl rfl)

/-- The bytes written to the connection over a terminated execution:
the concatenation of the flushed chunks, in order. -/
def writtenBytes : Option (List Obs) → Str
  | none => []
  | some t => (t.filterMap (fun o =>
      match o with
      | .wrote s => some s
      | .setDone => none)).flatten

/-- C8 counterexample: on the scenario schedule (one Send of the time
message, then cancellation) the bytes written are not the claimed
`"open:\n\n..."`: the open event is rendered `"event: open\n\n"`, not
`"open:\n\n"`. -/
theorem c8_counterexample :
    writtenBytes
        (clientRun
          [RAct.chooseEvent
              (EventI.msg { event := chars "time", data := chars "12:00\n12:01", id := [], retry := [] }),
            RAct.fireCancel, RAct.chooseCancel]) ≠
      chars "open:\n\nevent: time\ndata: 12:00\ndata: 12:01\n\nevent: close\n\n" := by
  decide

/-- C8 amended: on the scenario schedule the bytes written to the
connection are exactly `"event: open\n\n"`, then
`"event: time\ndata: 12:00\ndata: 12:01\n\n"`, then after cancellation
`"event: close\n\n"`. -/
theorem c8_amended_scenario_bytes :
    writtenBytes
        (clientRun
          [RAct.chooseEvent
              (EventI.msg { event := chars "time", data := chars "12:00\n12:01", id := [], retry := [] }),
            RAct.fireCancel, RAct.chooseCancel]) =
      chars "event: open\n\nevent: time\ndata: 12:00\ndata: 12:01\n\nevent: close\n\n" := by
  decide

/-! ## `Client.Send`

`Send` is a two-way select: hand the event to the write loop over the
unbuffered `eventC` channel, or observe the closed `done` channel and
return the error.  A send branch is ready exactly when the write loop is
blocked at its own select ready to receive (`receiverReady`); the done
branch is ready exactly when `done` has been closed.  When both are ready
Go picks either (`pick`); when neither is ready the call blocks. -/

/-- Outcome of one `Send` call. -/
inductive SendOutcome where
  | delivered : SendOutcome
  | closedErr : SendOutcome
  | blocked : SendOutcome
  deriving DecidableEq

/-- `Client.Send` from client.go, as a function of the readiness of its
two select branches and of the choice Go makes when both are ready. -/
def Send (receiverReady doneClosed pick : Bool) : SendOutcome :=
  if receiverReady && doneClosed then (if pick then .delivered else .closedErr)
  else if receiverReady then .delivered
  else if doneClosed then .closedErr
  else .blocked

/-- C4: after the write loop has exited the `done` channel is closed and
nothing ever receives on `eventC` again, so every `Send` returns the
closed-client failure and never blocks, whichever way the select would
pick; before termination (`done` still open) a `Send` returns success
exactly when the event has been handed to the write loop's receive. -/
theorem c4_send_after_done (pick receiverReady : Bool) :
    (Send false true pick = SendOutcome.closedErr ∧
      Send false true pick ≠ SendOutcome.blocked) ∧
    (Send receiverReady false pick = SendOutcome.delivered ↔ receiverReady = true) := by
  revert pick receiverReady
  decide

/-! ## `Handler`

`Handler` wraps a request-handling callback: it initializes a client on
the response writer, fails the request with status 500 when that fails,
otherwise publishes the client in the request context under `ClientKey`,
runs the callback, and only after the callback returns starts the write
loop with the (augmented) request context — whose cancellation signal is
the original request's, since `context.WithValue` adds no cancellation.
The sequential trace of these effects is modelled directly. -/

/-- The key type and `ClientKey` constant of client.go. -/
def ClientKey : Nat := 0

/-- A request context: the identity of its cancellation/deadline signal,
and its key-value pairs. -/
structure Ctx where
  cancelId : Nat
  vals : List (Nat × Client)
  deriving DecidableEq

/-- `context.WithValue`: adds a key-value pair; the cancellation signal
is inherited from the parent. -/
def withValue (c : Ctx) (k : Nat) (v : Client) : Ctx :=
  { c with vals := (k, v) :: c.vals }

/-- `Context.Value`: the most recently added value for a key. -/
def ctxValue (c : Ctx) (k : Nat) : Option Client :=
  (c.vals.find? (fun p => p.1 = k)).map (fun p => p.2)

/-- An inbound request, reduced to its context. -/
structure Request where
  ctx : Ctx
  deriving DecidableEq

/-- The effects of `Handler` on one request, in program order. -/
inductive HObs where
  | wroteStatus : Nat → HObs
  | servedCallback : Request → HObs
  | ranLoop : Client → Nat → HObs
  deriving DecidableEq

/-- `Handler` from client.go: initialize a client, answer 500 on failure,
otherwise publish the client under `ClientKey`, serve the callback with
the augmented request, and afterwards run the write loop with that
request's context as the cancellation source. -/
def Handler (w : ResponseWriter) (r : Request) : List HObs :=
  match ClientInit w with
  | .error _ => [.wroteStatus 500]
  | .ok (_, client) =>
    let r2 : Request := { ctx := withValue r.ctx ClientKey client }
    [.servedCallback r2, .ranLoop client r2.ctx.cancelId]

/-- C9: when client initialization fails, `Handler` answers the request
with status 500 and neither the callback nor the write loop ever runs;
otherwise it serves the callback with the client published under
`ClientKey`, and only after the callback returns (later in the trace)
runs that client's write loop, whose cancellation source is the request's
own cancellation signal. -/
theorem c9_handler (w : ResponseWriter) (r : Request) :
    (¬(w.canFlush = true ∧ w.canCloseNotify = true) →
      Handler w r = [HObs.wroteStatus 500]) ∧
    (w.canFlush = true ∧ w.canCloseNotify = true →
      ∀ w2 cl, ClientInit w = .ok (w2, cl) →
        Handler w r =
          [HObs.servedCallback { ctx := withValue r.ctx ClientKey cl },
            HObs.ranLoop cl (withValue r.ctx ClientKey cl).cancelId] ∧
        ctxValue (withValue r.ctx ClientKey cl) ClientKey = some cl ∧
        (withValue r.ctx ClientKey cl).cancelId = r.ctx.cancelId) := by
  constructor
  · intro hno
    rw [Handler]
    cases hf : w.canFlush with
    | false => rw [show ClientInit w = .error (chars "streaming not supported") from by
        rw [ClientInit, hf]
        rfl]
    | true =>
      cases hc : w.canCloseNotify with
      | false => rw [show ClientInit w = .error (chars "unable to start close handler") from by
          rw [ClientInit, hf, hc]
          rfl]
      | true => exact absurd ⟨hf, hc⟩ hno
  · intro hyes w2 cl hok
    refine ⟨?_, ?_, rfl⟩
    · rw [Handler, hok]
    · rw [ctxValue, withValue]
      simp [List.find?]

/-- Witness for C9 on a capable writer and a request whose cancellation
signal is number 7. -/
theorem c9_handler_witness :
    Handler { canFlush := true, canCloseNotify := true, headers := [], body := [] }
        { ctx := { cancelId := 7, vals := [] } } =
      [HObs.servedCallback
          { ctx := withValue { cancelId := 7, vals := [] } ClientKey { doneClosed := false } },
        HObs.ranLoop { doneClosed := false }
          (withValue { cancelId := 7, vals := [] } ClientKey { doneClosed := false }).cancelId] ∧
    ctxValue (withValue { cancelId := 7, vals := [] } ClientKey { doneClosed := false })
        ClientKey = some { doneClosed := false } ∧
    (withValue { cancelId := 7, vals := [] } ClientKey { doneClosed := false }).cancelId =
      ({ cancelId := 7, vals := [] } : Ctx).cancelId :=
  (c9_handler { canFlush := true, canCloseNotify := true, headers := [], body := [] }
      { ctx := { cancelId := 7, vals := [] } }).2 ⟨rfl, rfl⟩
    { canFlush := true, canCloseNotify := true,
      headers :=
        [(chars "Content-Type", chars "text/event-stream"),
          (chars "Cache-Control", chars "no-cache"),
          (chars "Connection", chars "keep-alive")],
      body := [] }
    { doneClosed := false } (by rfl)

end SSE

